import Mathlib

/-!
Shallow embedding of the MMM-Scores node helper (node_helper.js), written to
check the natural-language specification of the repository against the code.

Modelling conventions:
* JavaScript strings are Lean `String`; nullable/undefined JSON fields are
  `Option`; JS timestamps are `Int` (milliseconds).
* The JS `Date` constructor applied to arbitrary strings is modelled either by
  fields that already carry a resolved timestamp (`Option Int`, `none` for a
  falsy or unparsable value) or by an abstract `parse : String → Option Int`
  parameter.
* `Array.prototype.sort` with a comparator is a stable sort in Node; all the
  comparators in this file induce total preorders, so any stable sort computes
  the same list.  It is modelled with `List.insertionSort`, which is stable.
* JS `Map` is modelled as an association list in insertion order
  (`Array.from(map.values())` preserves insertion order).
-/

namespace MMMScores

/-- JS `a || b` for strings: the empty string is the only falsy string. -/
def jsOr (a b : String) : String := if a = "" then b else a

/-- JS `a || b` where both sides are nullable strings (null and "" are falsy). -/
def jsOrOpt (a b : Option String) : Option String :=
  match a with
  | some s => if s = "" then b else some s
  | none => b

/-- First truthy (present and non-empty) string among candidates; "" if none.
Models a JS `x.f1 || x.f2 || ... || ""` chain. -/
def firstTruthy : List (Option String) → String
  | [] => ""
  | none :: rest => firstTruthy rest
  | some s :: rest => if s = "" then firstTruthy rest else s

/-- A nullable string coerced to null when falsy (models `s || null`). -/
def optTruthy (o : Option String) : Option String :=
  match o with
  | some s => if s = "" then none else some s
  | none => none

/-- ASCII lower-casing of one character, as JS `toLowerCase` does for A-Z. -/
def jsLowerChar (c : Char) : Char :=
  if 65 ≤ c.toNat ∧ c.toNat ≤ 90 then Char.ofNat (c.toNat + 32) else c

/-- ASCII upper-casing of one character, as JS `toUpperCase` does for a-z. -/
def jsUpperChar (c : Char) : Char :=
  if 97 ≤ c.toNat ∧ c.toNat ≤ 122 then Char.ofNat (c.toNat - 32) else c

/-- JS `String.prototype.toLowerCase` (ASCII fragment). -/
def jsToLower (s : String) : String := String.mk (s.data.map jsLowerChar)

/-- JS `String.prototype.toUpperCase` (ASCII fragment). -/
def jsToUpper (s : String) : String := String.mk (s.data.map jsUpperChar)

/-- Whitespace recognised by the model of `trim` and of the `[\s,]+` split. -/
def isJsSpace (c : Char) : Bool := c == ' ' || c == '\t' || c == '\n' || c == '\r'

/-- JS `String.prototype.trim`. -/
def jsTrim (s : String) : String :=
  String.mk (((s.data.dropWhile isJsSpace).reverse.dropWhile isJsSpace).reverse)

/-- JS `s.slice(0, n)`. -/
def jsSlice (n : Nat) (s : String) : String := String.mk (s.data.take n)

/-- Substring search over char lists (JS `String.prototype.includes`). -/
def listContainsSub : List Char → List Char → Bool
  | [], pat => pat.isEmpty
  | c :: rest, pat => pat.isPrefixOf (c :: rest) || listContainsSub rest pat

/-- JS `s.includes(pat)`. -/
def strIncludes (s pat : String) : Bool := listContainsSub s.data pat.data

/-! ### Stable sort by a boolean comparator

All `Array.sort(cmp)` calls in node_helper.js use comparators that induce a
total preorder, so the (stable) Node sort agrees with stable insertion sort. -/

/-- Stable sort by a boolean "less or equal" test. -/
def sortByLe {α : Type} (le : α → α → Bool) (l : List α) : List α :=
  @List.insertionSort α (fun a b => le a b = true)
    (fun a b => instDecidableEqBool (le a b) true) l

theorem sortByLe_sorted {α : Type} (le : α → α → Bool)
    (htot : ∀ a b, le a b = true ∨ le b a = true)
    (htrans : ∀ a b c, le a b = true → le b c = true → le a c = true)
    (l : List α) : List.Sorted (fun a b => le a b = true) (sortByLe le l) :=
  @List.sorted_insertionSort α _ _ ⟨htot⟩ ⟨htrans⟩ l

theorem sortByLe_perm {α : Type} (le : α → α → Bool) (l : List α) :
    (sortByLe le l).Perm l :=
  List.perm_insertionSort _ l

theorem mem_sortByLe {α : Type} {le : α → α → Bool} {l : List α} {a : α}
    (h : a ∈ sortByLe le l) : a ∈ l :=
  (sortByLe_perm le l).mem_iff.mp h

/-! ### Target Date Resolver (`_getTargetDate`)

The local calendar date and the local hour/minute, obtained in the source from
`toLocaleDateString`/`toLocaleTimeString` in the configured timezone, are the
inputs of the model.  The rollback `new Date(dateIso); setDate(getDate()-1);
toISOString().slice(0,10)` is modelled as the previous Gregorian calendar day
(its intended library semantics). -/

/-- Gregorian leap year. -/
def isLeap (y : Nat) : Bool := (y % 4 == 0 && y % 100 != 0) || y % 400 == 0

/-- Days in a Gregorian month. -/
def daysInMonth (y m : Nat) : Nat :=
  if m = 2 then (if isLeap y then 29 else 28)
  else if m = 4 ∨ m = 6 ∨ m = 9 ∨ m = 11 then 30
  else 31

/-- A local calendar date. -/
structure Ymd where
  y : Nat
  m : Nat
  d : Nat
deriving DecidableEq

/-- Previous Gregorian calendar day. -/
def prevDay (dt : Ymd) : Ymd :=
  if 1 < dt.d then ⟨dt.y, dt.m, dt.d - 1⟩
  else if 1 < dt.m then ⟨dt.y, dt.m - 1, daysInMonth dt.y (dt.m - 1)⟩
  else ⟨dt.y - 1, 12, 31⟩

/-- The character of a decimal digit. -/
def digitChar (n : Nat) : Char := Char.ofNat (48 + n % 10)

/-- Two-digit zero-padded rendering. -/
def pad2 (n : Nat) : List Char := [digitChar (n / 10), digitChar n]

/-- Four-digit zero-padded rendering. -/
def pad4 (n : Nat) : List Char :=
  [digitChar (n / 1000), digitChar (n / 100), digitChar (n / 10), digitChar n]

/-- The `en-CA` locale date string YYYY-MM-DD used as `dateIso`. -/
def isoChars (dt : Ymd) : List Char :=
  pad4 dt.y ++ '-' :: pad2 dt.m ++ '-' :: pad2 dt.d

/-- The compact form YYYYMMDD. -/
def compactChars (dt : Ymd) : List Char := pad4 dt.y ++ pad2 dt.m ++ pad2 dt.d

/-- Test that a character is not a dash. -/
def notDash (c : Char) : Bool := c != '-'

/-- JS `dateIso.replace(dashGlobalRegex, "")`: drop every dash. -/
def removeDashes (cs : List Char) : List Char := cs.filter notDash

/-- `_getTargetDate`: the resolved `{dateIso, dateCompact}` pair.  The callers
in the repository always use the default `usePreviousDayEarly = true`. -/
def getTargetDate (usePreviousDayEarly : Bool) (localDate : Ymd) (h m : Nat) :
    List Char × List Char :=
  let dateIso :=
    if usePreviousDayEarly = true ∧ (h < 9 ∨ (h = 9 ∧ m < 30)) then
      isoChars (prevDay localDate)
    else isoChars localDate
  (dateIso, removeDashes dateIso)

/-! ### Olympic hockey normalizer

Raw ESPN scoreboard shapes (`_normalizedOlympicGamesFromEvents`,
`_normalizeOlympicStatus`, `_normalizeOlympicTeam`). -/

/-- A raw `competitor.team` JSON node. -/
structure RawTeam where
  displayName : Option String
  shortDisplayName : Option String
  name : Option String
  abbreviation : Option String
deriving DecidableEq

/-- A raw competitor JSON node. -/
structure RawCompetitor where
  homeAway : Option String
  score : Option String
  displayName : Option String
  team : Option RawTeam
deriving DecidableEq

/-- A raw `status.type` JSON node. -/
structure RawStatusType where
  state : Option String
  description : Option String
  shortDetail : Option String
deriving DecidableEq

/-- A raw status JSON node. -/
structure RawStatus where
  type : Option RawStatusType
  detail : Option String
  displayClock : Option String
deriving DecidableEq

/-- A raw venue JSON node. -/
structure RawVenue where
  fullName : Option String
  name : Option String
deriving DecidableEq

/-- A raw competition JSON node. -/
structure RawCompetition where
  id : Option String
  date : Option String
  startDate : Option String
  status : Option RawStatus
  venue : Option RawVenue
  competitors : Option (List RawCompetitor)
deriving DecidableEq

/-- A raw scoreboard event JSON node. -/
structure RawEvent where
  id : Option String
  date : Option String
  startDate : Option String
  status : Option RawStatus
  competitions : Option (List RawCompetition)
  competition : Option RawCompetition
deriving DecidableEq

/-- The parts returned by `_normalizeOlympicStatus`. -/
structure OlympicStatusParts where
  status : String
  detailed : String
  period : String
  clock : String
deriving DecidableEq

/-- `_normalizeOlympicStatus`. -/
def normalizeOlympicStatus (statusObj : Option RawStatus) : OlympicStatusParts :=
  let st := statusObj.getD ⟨none, none, none⟩
  let ty := st.type.getD ⟨none, none, none⟩
  let rawType := jsToLower (ty.state.getD "")
  let detailed := jsOr (ty.description.getD "") (st.detail.getD "")
  let period := ty.shortDetail.getD ""
  let clock := st.displayClock.getD ""
  let status :=
    if rawType = "in" ∨ rawType = "live" then "live"
    else if rawType = "post" ∨ rawType = "final" then "final"
    else "pre"
  ⟨status, detailed, period, clock⟩

/-- The canonical Team record of the Olympic normalizer. -/
structure OTeam where
  code3 : String
  name : String
  score : String
deriving DecidableEq

/-- An absent competitor (`|| {}` in the source). -/
def defaultRawCompetitor : RawCompetitor := ⟨none, none, none, none⟩

/-- The `name` computed by `_normalizeOlympicTeam`. -/
def olympicTeamName (competitor : RawCompetitor) : String :=
  let team := competitor.team.getD ⟨none, none, none, none⟩
  firstTruthy [team.displayName, team.shortDisplayName, team.name,
    competitor.displayName]

/-- The `code3` computed by `_normalizeOlympicTeam`. -/
def olympicTeamCode3 (competitor : RawCompetitor) : String :=
  let team := competitor.team.getD ⟨none, none, none, none⟩
  jsSlice 3 (jsToUpper (jsTrim (firstTruthy [team.abbreviation,
    team.shortDisplayName])))

/-- `_normalizeOlympicTeam`: null when neither a name nor a code is found. -/
def normalizeOlympicTeam (competitor : RawCompetitor) : Option OTeam :=
  let name := olympicTeamName competitor
  let code3 := olympicTeamCode3 competitor
  if name = "" ∧ code3 = "" then none
  else some ⟨code3, name, competitor.score.getD ""⟩

/-- The `source` diagnostic attached to each normalized game. -/
structure Source where
  providerName : String
  fetchedAtUTC : String
deriving DecidableEq

/-- The canonical normalized Olympic game record. -/
structure OlympicGame where
  leagueKey : String
  gameId : String
  startTimeUTC : String
  status : String
  period : String
  clock : String
  home : OTeam
  away : OTeam
  venue : String
  source : Source
deriving DecidableEq

/-- `_firstString`: first present candidate with a non-empty trim, trimmed. -/
def firstString : List (Option String) → String
  | [] => ""
  | none :: rest => firstString rest
  | some v :: rest => if jsTrim v = "" then firstString rest else jsTrim v

/-- The competition selected for an event: `competitions[0]` when
`competitions` is an array, otherwise the `competition` object. -/
def olympicEventCompetition (event : RawEvent) : Option RawCompetition :=
  match event.competitions with
  | some cs => cs.head?
  | none => event.competition

/-- The competitor array of the selected competition (`[]` when absent). -/
def olympicEventCompetitors (event : RawEvent) : List RawCompetitor :=
  match olympicEventCompetition event with
  | some c => c.competitors.getD []
  | none => []

/-- `competitors.find(homeAway === "home") || competitors[0] || {}`. -/
def olympicHomeCompetitor (competitors : List RawCompetitor) : RawCompetitor :=
  match competitors.find? (fun c => c.homeAway == some "home") with
  | some c => c
  | none => competitors.head?.getD defaultRawCompetitor

/-- `competitors.find(homeAway === "away") || competitors[1] || {}`. -/
def olympicAwayCompetitor (competitors : List RawCompetitor) : RawCompetitor :=
  match competitors.find? (fun c => c.homeAway == some "away") with
  | some c => c
  | none => (competitors.get? 1).getD defaultRawCompetitor

/-- `event.status || (competition && competition.status) || {}`. -/
def olympicEventStatus (event : RawEvent) : Option RawStatus :=
  match event.status with
  | some s => some s
  | none => (olympicEventCompetition event).bind (fun c => c.status)

/-- The venue string of a normalized game. -/
def olympicEventVenue (event : RawEvent) : String :=
  match olympicEventCompetition event with
  | some c =>
    match c.venue with
    | some v => jsOr (v.fullName.getD "") (v.name.getD "")
    | none => ""
  | none => ""

/-- `String(event.id || (competition && competition.id) || leagueKey-i)`. -/
def olympicGameId (event : RawEvent) (leagueKey : String) (i : Nat) : String :=
  jsOr (event.id.getD "")
    (jsOr (((olympicEventCompetition event).bind (fun c => c.id)).getD "")
      (leagueKey ++ "-" ++ toString i))

/-- The loop body of `_normalizedOlympicGamesFromEvents` for one indexed
event; `none` models `continue`. -/
def normalizeOlympicEvent (leagueKey providerName fetchedAtUTC : String)
    (ie : Nat × RawEvent) : Option OlympicGame :=
  let event := ie.2
  let competitors := olympicEventCompetitors event
  if competitors.length < 2 then none
  else
    let statusParts := normalizeOlympicStatus (olympicEventStatus event)
    match normalizeOlympicTeam (olympicHomeCompetitor competitors),
        normalizeOlympicTeam (olympicAwayCompetitor competitors) with
    | some homeTeam, some awayTeam =>
      some
        { leagueKey := leagueKey
          gameId := olympicGameId event leagueKey ie.1
          startTimeUTC := firstString [event.date, event.startDate,
            (olympicEventCompetition event).bind
              (fun c => jsOrOpt c.date c.startDate), some ""]
          status := statusParts.status
          period := statusParts.period
          clock := statusParts.clock
          home := homeTeam
          away := awayTeam
          venue := olympicEventVenue event
          source := ⟨providerName, fetchedAtUTC⟩ }
    | _, _ => none

/-- `_firstDate(g.startTimeUTC)` for a normalized game: the falsy "" resolves
to null, a non-empty string goes through the abstract `Date` parser. -/
def olympicDateKey (parse : String → Option Int) (g : OlympicGame) :
    Option Int :=
  if g.startTimeUTC = "" then none else parse g.startTimeUTC

/-- The sort comparator of the normalizer as a "less or equal" test
(comparator result at most 0). -/
def dateKeyLe (da db : Option Int) : Bool :=
  match da, db with
  | some a, some b => decide (a ≤ b)
  | some _, none => true
  | none, some _ => false
  | none, none => true

/-- The normalizer sort order on games. -/
def olympicGameLe (parse : String → Option Int) (a b : OlympicGame) : Bool :=
  dateKeyLe (olympicDateKey parse a) (olympicDateKey parse b)

/-- `_normalizedOlympicGamesFromEvents`. -/
def normalizedOlympicGamesFromEvents (parse : String → Option Int)
    (events : List RawEvent) (leagueKey providerName fetchedAtUTC : String) :
    List OlympicGame :=
  sortByLe (olympicGameLe parse)
    ((events.enum).filterMap
      (normalizeOlympicEvent leagueKey providerName fetchedAtUTC))

/-! ### Legacy event conversion (`_normalizedGamesToLegacyEvents`) -/

/-- The `type` node of a legacy status. -/
structure LegacyStatusType where
  state : String
  description : String
  shortDetail : String
deriving DecidableEq

/-- A legacy status object (`_legacyStatusFromNormalized`). -/
structure LegacyStatus where
  abstractGameState : String
  detailedState : String
  displayClock : String
  period : String
  type : LegacyStatusType
deriving DecidableEq

/-- A legacy competitor team node. -/
structure LegacyTeam where
  abbreviation : String
  displayName : String
deriving DecidableEq

/-- A legacy competitor node. -/
structure LegacyCompetitor where
  homeAway : String
  score : String
  team : LegacyTeam
deriving DecidableEq

/-- A legacy competition node. -/
structure LegacyCompetition where
  date : String
  competitors : List LegacyCompetitor
  venueFullName : String
  status : LegacyStatus
deriving DecidableEq

/-- A legacy event node. -/
structure LegacyEvent where
  id : String
  date : String
  competitions : List LegacyCompetition
  status : LegacyStatus
deriving DecidableEq

/-- `_legacyStatusFromNormalized`. -/
def legacyStatusFromNormalized (g : OlympicGame) : LegacyStatus :=
  let state := jsOr g.status "pre"
  let isLive := state = "live"
  let isFinal := state = "final"
  { abstractGameState := if isLive then "Live" else if isFinal then "Final"
      else "Preview"
    detailedState := if isLive then jsOr g.period (jsOr g.clock "In Progress")
      else if isFinal then "Final" else "Scheduled"
    displayClock := g.clock
    period := g.period
    type :=
      { state := if isLive then "in" else if isFinal then "post" else "pre"
        description := if isLive then "In Progress"
          else if isFinal then "Final" else "Scheduled"
        shortDetail := jsOr g.period (if isFinal then "Final"
          else "Scheduled") } }

/-- `_normalizedGamesToLegacyEvents`. -/
def normalizedGamesToLegacyEvents (games : List OlympicGame) :
    List LegacyEvent :=
  games.map (fun game =>
    let statusObj := legacyStatusFromNormalized game
    { id := game.gameId
      date := game.startTimeUTC
      competitions := [
        { date := game.startTimeUTC
          competitors := [
            { homeAway := "away", score := game.away.score,
              team := ⟨game.away.code3, game.away.name⟩ },
            { homeAway := "home", score := game.home.score,
              team := ⟨game.home.code3, game.home.name⟩ }]
          venueFullName := game.venue
          status := statusObj }]
      status := statusObj })

/-! ### Olympic fetch orchestrator (`_fetchOlympicHockeyGames`)

Each provider attempt of one cycle is summarised by its observable outcome:
a provider-cache hit (used and loop exited, even when the cached list is
empty), a completed fetch with its normalized games, or a thrown error
(logged and skipped).  The provider-cache write performed on a non-empty
fetch does not influence the current cycle and is not part of this model. -/

/-- Outcome of one provider attempt in the fallback chain. -/
inductive ProviderOutcome where
  | cacheHit (games : List OlympicGame)
  | fetched (games : List OlympicGame)
  | err
deriving DecidableEq

/-- The games a provider attempt yielded for the cycle. -/
def outcomeGames : ProviderOutcome → List OlympicGame
  | .cacheHit games => games
  | .fetched games => games
  | .err => []

/-- The provider loop: first cache hit wins, a fetch wins when non-empty,
errors and empty fetches fall through. -/
def providerChainResult : List ProviderOutcome → List OlympicGame
  | [] => []
  | .cacheHit games :: _ => games
  | .fetched games :: rest =>
    if 0 < games.length then games else providerChainResult rest
  | .err :: rest => providerChainResult rest

/-- The tail of `_fetchOlympicHockeyGames`: the results-page fallback, the
last-good update, and the last-good degraded-mode substitution.  Returns the
games chosen for emission and the new last-good snapshot. -/
def olympicCycle (outcomes : List ProviderOutcome)
    (resultsPage : List OlympicGame) (lastGood : Option (List OlympicGame)) :
    List OlympicGame × Option (List OlympicGame) :=
  let fromChain := providerChainResult outcomes
  let normalizedGames :=
    if fromChain.length = 0 ∧ 0 < resultsPage.length then resultsPage
    else fromChain
  if 0 < normalizedGames.length then (normalizedGames, some normalizedGames)
  else
    match lastGood with
    | some lg => if 0 < lg.length then (lg, some lg) else (normalizedGames, lastGood)
    | none => (normalizedGames, lastGood)

/-! ### NHL hydration and sorting (`_hydrateNhlGames`)

An NHL game is modelled by its candidate start-date fields, each carried as
the timestamp the JS `Date` constructor would resolve it to (`none` for an
absent, falsy or unparsable value).  The remaining hydration work of
`_hydrateNhlGame` (status defaulting, linescore and shots-on-goal synonym
extraction) does not influence the ordering claims and is outside this model;
the null filter of the hydration loop is vacuous here because every modelled
game is an object. -/

/-- An NHL game, reduced to its start-date candidate fields. -/
structure NhlGame where
  startTimeUTC : Option Int
  gameDate : Option Int
  startTime : Option Int
  gameDateTime : Option Int
  startTimeLocal : Option Int
deriving DecidableEq

/-- `_firstDate` over the five candidate fields of a game. -/
def nhlStartDate (g : NhlGame) : Option Int :=
  (((g.startTimeUTC.orElse (fun _ => g.gameDate)).orElse
    (fun _ => g.startTime)).orElse
    (fun _ => g.gameDateTime)).orElse
    (fun _ => g.startTimeLocal)

/-- The date-filling part of `_hydrateNhlGame`: a resolved start date is
written into the falsy `gameDate` and `startTimeUTC` fields. -/
def hydrateNhlGame (g : NhlGame) : NhlGame :=
  match nhlStartDate g with
  | some t =>
    { g with gameDate := some (g.gameDate.getD t),
             startTimeUTC := some (g.startTimeUTC.getD t) }
  | none => g

/-- The `_hydrateNhlGames` comparator as a "less or equal" test. -/
def nhlGameLe (a b : NhlGame) : Bool :=
  dateKeyLe (nhlStartDate a) (nhlStartDate b)

/-- `_hydrateNhlGames`: hydrate every game, then sort. -/
def hydrateNhlGames (games : List NhlGame) : List NhlGame :=
  sortByLe nhlGameLe (games.map hydrateNhlGame)

/-! ### NHL scoreboard final detail (`_nhlScoreboardFinalDetail`) -/

/-- A `periodDescriptor` node; `number` is already passed through
`_asNumberOrNull`. -/
structure PeriodDescriptor where
  number : Option Int
  periodType : Option String
deriving DecidableEq

/-- `_nhlScoreboardFinalDetail`. -/
def nhlScoreboardFinalDetail (pd : PeriodDescriptor) : String :=
  let ty := jsToUpper (pd.periodType.getD "")
  if ty = "SO" then "Final/SO"
  else if ty = "OT" then
    match pd.number with
    | some n => if n ≠ 0 ∧ 4 < n then "Final/" ++ toString (n - 3) ++ "OT"
      else "Final/OT"
    | none => "Final/OT"
  else "Final"

/-! ### NHL stats REST circuit breaker

`_nhlStatsRestAvailable`, `_markNhlStatsRestUnavailable` and the availability
gate of `_fetchNhlStatsRestGames`.  The HTTP call is an oracle argument; the
per-game payload normalization (`_normalizeNhlStatsRestGame`) is abstracted:
the oracle's `ok` case carries already-normalized games, which the fetch
hydrates exactly as the source does. -/

/-- The `_nhlStatsRestStatus` record (`available: null` initially). -/
structure RestStatus where
  available : Option Bool
  checkedAt : Int
  warnedAt : Int
deriving DecidableEq

/-- 24 hours in milliseconds. -/
def restTtlMs : Int := 24 * 60 * 60 * 1000

/-- `_nhlStatsRestAvailable`: the verdict together with the possibly
warnedAt-updated status record. -/
def nhlStatsRestAvailable (st : RestStatus) (now : Int) : Bool × RestStatus :=
  if st.checkedAt ≠ 0 ∧ now - st.checkedAt < restTtlMs ∧
      st.available = some false then
    if st.warnedAt = 0 ∨ restTtlMs < now - st.warnedAt then
      (false, { st with warnedAt := now })
    else (false, st)
  else (true, st)

/-- `_markNhlStatsRestUnavailable`. -/
def markNhlStatsRestUnavailable (now : Int) : RestStatus :=
  ⟨some false, now, now⟩

/-- Oracle for one REST HTTP attempt. -/
inductive RestHttp where
  | ok (games : List NhlGame)
  | httpError (status : Int)
  | netError
deriving DecidableEq

/-- Observable outcome of one `_fetchNhlStatsRestGames` call: the returned
games (empty when the call threw), the new status record, whether the
endpoint was actually contacted, and whether the call threw. -/
structure RestFetchOutcome where
  games : List NhlGame
  status : RestStatus
  didCall : Bool
  threw : Bool
deriving DecidableEq

/-- `_fetchNhlStatsRestGames`. -/
def fetchNhlStatsRestGames (st : RestStatus) (now : Int) (http : RestHttp) :
    RestFetchOutcome :=
  let checked := nhlStatsRestAvailable st now
  if checked.1 = false then ⟨[], checked.2, false, false⟩
  else
    match http with
    | .ok games => ⟨hydrateNhlGames games, checked.2, true, false⟩
    | .httpError status =>
      if status = 404 then ⟨[], markNhlStatsRestUnavailable now, true, true⟩
      else ⟨[], checked.2, true, true⟩
    | .netError => ⟨[], checked.2, true, true⟩

/-- A sequence of fetch attempts at given times, threading the status. -/
def runRestFetches (st : RestStatus) :
    List (Int × RestHttp) → List RestFetchOutcome
  | [] => []
  | (t, http) :: rest =>
    let o := fetchNhlStatsRestGames st t http
    o :: runRestFetches o.status rest

/-! ### NFL week aggregation

`_collectNflScoreboardEvents`, `_collectNflScoreboardByes`,
`_normalizeNflByeTeam`, `_isNflProBowl`, `_mergeNflScoreboardResponse`,
`_finalizeNflWeekResults` and the aggregation loop of `_fetchNflWeekGames`.
Per-date fetches that threw are simply absent from the modelled response
list, as the source logs and skips them. -/

/-- A raw NFL competitor team node (the fields `_isNflProBowl` reads). -/
structure NflTeamRaw where
  displayName : Option String
  shortDisplayName : Option String
  name : Option String
  abbreviation : Option String
deriving DecidableEq

/-- A raw NFL competitor node. -/
structure NflCompetitorRaw where
  displayName : Option String
  shortDisplayName : Option String
  team : Option NflTeamRaw
deriving DecidableEq

/-- A raw NFL competition node. -/
structure NflCompetitionRaw where
  name : Option String
  shortName : Option String
  description : Option String
  headline : Option String
  competitors : Option (List NflCompetitorRaw)
deriving DecidableEq

/-- A raw NFL scoreboard event. -/
structure NflEventRaw where
  id : Option String
  uid : Option String
  name : Option String
  shortName : Option String
  description : Option String
  headline : Option String
  competitions : Option (List NflCompetitionRaw)
deriving DecidableEq

/-- A raw bye-week team node. -/
structure NflByeRaw where
  id : Option String
  uid : Option String
  abbreviation : Option String
  shortDisplayName : Option String
  name : Option String
  location : Option String
  displayName : Option String
deriving DecidableEq

/-- The `week` container carrying `teamsOnBye`. -/
structure NflWeekRaw where
  teamsOnBye : Option (List NflByeRaw)
deriving DecidableEq

/-- The `content.schedule` container. -/
structure NflScheduleRaw where
  events : Option (List NflEventRaw)
  items : Option (List NflEventRaw)
  week : Option NflWeekRaw
deriving DecidableEq

/-- The `content` container. -/
structure NflContentRaw where
  events : Option (List NflEventRaw)
  schedule : Option NflScheduleRaw
  week : Option NflWeekRaw
deriving DecidableEq

/-- The nested `scoreboard` container. -/
structure NflScoreboardRaw where
  events : Option (List NflEventRaw)
deriving DecidableEq

/-- A raw NFL scoreboard response body. -/
structure NflJson where
  events : Option (List NflEventRaw)
  games : Option (List NflEventRaw)
  content : Option NflContentRaw
  scoreboard : Option NflScoreboardRaw
  week : Option NflWeekRaw
deriving DecidableEq

/-- `_collectNflScoreboardEvents`. -/
def collectNflScoreboardEvents (json : NflJson) : List NflEventRaw :=
  json.events.getD [] ++ json.games.getD [] ++
    (match json.content with
     | some content =>
       content.events.getD [] ++
         (match content.schedule with
          | some schedule => schedule.events.getD [] ++ schedule.items.getD []
          | none => [])
     | none => []) ++
    (match json.scoreboard with
     | some sb => sb.events.getD []
     | none => [])

/-- `_collectNflScoreboardByes`. -/
def collectNflScoreboardByes (json : NflJson) : List NflByeRaw :=
  (match json.week with
   | some w => w.teamsOnBye.getD []
   | none => []) ++
    (match json.content with
     | some content =>
       (match content.week with
        | some w => w.teamsOnBye.getD []
        | none => []) ++
         (match content.schedule with
          | some schedule =>
            match schedule.week with
            | some w => w.teamsOnBye.getD []
            | none => []
          | none => [])
     | none => [])

/-- A normalized bye-week team (`_normalizeNflByeTeam`). -/
structure NflBye where
  id : String
  abbreviation : String
  displayName : String
  shortDisplayName : Option String
deriving DecidableEq

/-- `_normalizeNflByeTeam`. -/
def normalizeNflByeTeam (team : NflByeRaw) : Option NflBye :=
  let abbreviationSource := firstTruthy [team.abbreviation,
    team.shortDisplayName, team.name, team.location]
  let abbreviation := jsTrim abbreviationSource
  if abbreviation = "" then none
  else
    let normalizedAbbr := jsToUpper abbreviation
    let nameSource := jsOr (firstTruthy [team.displayName, team.name,
      team.shortDisplayName, team.location]) normalizedAbbr
    let displayName := jsOr (jsTrim nameSource) normalizedAbbr
    some
      { id := jsOr (team.id.getD "") (jsOr (team.uid.getD "") normalizedAbbr)
        abbreviation := normalizedAbbr
        displayName := displayName
        shortDisplayName := optTruthy team.shortDisplayName }

/-- The token collector `pushToken` of `_isNflProBowl`. -/
def pushToken (tokens : List String) (val : Option String) : List String :=
  match val with
  | none => tokens
  | some v =>
    let s := jsTrim (jsToLower v)
    if s = "" then tokens else tokens ++ [s]

/-- The tokens contributed by one competitor. -/
def nflCompetitorTokens (tokens : List String) (entry : NflCompetitorRaw) :
    List String :=
  let team := entry.team.getD ⟨none, none, none, none⟩
  pushToken (pushToken (pushToken (pushToken (pushToken
    (pushToken tokens entry.displayName) entry.shortDisplayName)
    team.displayName) team.shortDisplayName) team.name) team.abbreviation

/-- The tokens contributed by one competition. -/
def nflCompetitionTokens (tokens : List String) (comp : NflCompetitionRaw) :
    List String :=
  let t := pushToken (pushToken (pushToken (pushToken tokens comp.name)
    comp.shortName) comp.description) comp.headline
  (comp.competitors.getD []).foldl nflCompetitorTokens t

/-- `_isNflProBowl`. -/
def isNflProBowl (game : NflEventRaw) : Bool :=
  let t0 := pushToken (pushToken (pushToken (pushToken [] game.name)
    game.shortName) game.description) game.headline
  let tokens := (game.competitions.getD []).foldl nflCompetitionTokens t0
  if tokens.isEmpty then false
  else
    let combined := String.intercalate " " tokens
    strIncludes combined "pro bowl" || strIncludes combined "pro-bowl" ||
      strIncludes combined "nfc vs afc" || strIncludes combined "afc vs nfc"

/-- The Map key of one event: `event.id || event.uid || keyPfx-j` (with the
`"event"` substitute for a falsy key prefix). -/
def nflEventKey (pfx : String) (j : Nat) (ev : NflEventRaw) : String :=
  jsOr (ev.id.getD "")
    (jsOr (ev.uid.getD "") (jsOr pfx "event" ++ "-" ++ toString j))

/-- `if (!aggregated.has(key)) aggregated.set(key, event)` on an insertion
ordered association list. -/
def insertIfAbsent (agg : List (String × NflEventRaw)) (k : String)
    (ev : NflEventRaw) : List (String × NflEventRaw) :=
  if agg.any (fun p => p.1 == k) then agg else agg ++ [(k, ev)]

/-- Fold `insertIfAbsent` over pre-keyed pairs. -/
def foldInsert (agg : List (String × NflEventRaw))
    (pairs : List (String × NflEventRaw)) : List (String × NflEventRaw) :=
  pairs.foldl (fun acc p => insertIfAbsent acc p.1 p.2) agg

/-- The keyed stream of one response's events. -/
def keyedEvents (pfx : String) (events : List NflEventRaw) :
    List (String × NflEventRaw) :=
  events.enum.map (fun je => (nflEventKey pfx je.1 je.2, je.2))

/-- `Map.set` on the bye map: overwrite in place, append when absent. -/
def assocSet (m : List (String × NflBye)) (k : String) (v : NflBye) :
    List (String × NflBye) :=
  if m.any (fun p => p.1 == k) then
    m.map (fun p => if p.1 == k then (k, v) else p)
  else m ++ [(k, v)]

/-- The bye half of `_mergeNflScoreboardResponse`. -/
def mergeByes (byes : List (String × NflBye)) (raws : List NflByeRaw) :
    List (String × NflBye) :=
  raws.foldl (fun acc r =>
    match normalizeNflByeTeam r with
    | some b => assocSet acc b.abbreviation b
    | none => acc) byes

/-- `_mergeNflScoreboardResponse`. -/
def mergeNflScoreboardResponse (json : NflJson)
    (agg : List (String × NflEventRaw)) (byes : List (String × NflBye))
    (keyPfx : String) :
    List (String × NflEventRaw) × List (String × NflBye) :=
  (foldInsert agg (keyedEvents keyPfx (collectNflScoreboardEvents json)),
    mergeByes byes (collectNflScoreboardByes json))

/-- The final results record of one NFL aggregation pass. -/
structure NflWeekResults where
  games : List NflEventRaw
  byes : List NflBye
deriving DecidableEq

/-- `_finalizeNflWeekResults`: values in insertion order, Pro Bowl events
dropped, byes sorted by abbreviation. -/
def finalizeNflWeekResults (agg : List (String × NflEventRaw))
    (byes : List (String × NflBye)) : NflWeekResults :=
  { games := (agg.map (fun p => p.2)).filter (fun g => !(isNflProBowl g))
    byes := sortByLe (fun a b : NflBye => decide (a.abbreviation ≤ b.abbreviation))
      (byes.map (fun p => p.2)) }

/-- The aggregation state after merging a list of (dateIso, body) responses,
as `_fetchNflWeekGames` does. -/
def mergeNflResponses (responses : List (String × NflJson)) :
    List (String × NflEventRaw) × List (String × NflBye) :=
  responses.foldl
    (fun st r => mergeNflScoreboardResponse r.2 st.1 st.2 r.1) ([], [])

/-- `_fetchNflWeekGames` on already-fetched responses. -/
def fetchNflWeekGames (responses : List (String × NflJson)) : NflWeekResults :=
  let st := mergeNflResponses responses
  finalizeNflWeekResults st.1 st.2

/-- The concatenated keyed event stream of all responses, in fetch order. -/
def keyedStream (responses : List (String × NflJson)) :
    List (String × NflEventRaw) :=
  responses.flatMap (fun r => keyedEvents r.1 (collectNflScoreboardEvents r.2))

/-- Lookup in the aggregation map. -/
def lookupKey (agg : List (String × NflEventRaw)) (k : String) :
    Option NflEventRaw :=
  (agg.find? (fun p => p.1 == k)).map (fun p => p.2)

/-! ### League configuration and notification

`_coerceLeagueArray`, `_resolveConfiguredLeagues`, `_getLeague`, the league
resolution of the INIT handler, `_normalizeLeagueKey` and `_notifyGames`. -/

/-- The six supported league keys. -/
def SUPPORTED_LEAGUES : List String :=
  ["mlb", "nhl", "nfl", "nba", "olympic_mhockey", "olympic_whockey"]

/-- A configuration value for the league selection: a string, an arbitrarily
nested array, or a null-ish value. -/
inductive ConfigVal where
  | str (s : String)
  | arr (items : List ConfigVal)
  | nullVal

/-- Split a character list at every character satisfying `p`. -/
def splitCharsAux (p : Char → Bool) : List Char → List Char → List (List Char)
  | [], cur => [cur.reverse]
  | c :: rest, cur =>
    if p c then cur.reverse :: splitCharsAux p rest []
    else splitCharsAux p rest (c :: cur)

/-- Split a string on runs of whitespace or commas, dropping empty parts
(the `str.split` regex split plus the per-part trim-and-check of
`collect`; splitting at every separator and filtering empties agrees with
the run-collapsing regex split). -/
def splitLeagueTokens (s : String) : List String :=
  (((splitCharsAux (fun c => isJsSpace c || c == ',') s.data []).map
    (fun l => jsTrim (String.mk l))).filter (fun p => p ≠ ""))

mutual

/-- The recursive `collect` of `_coerceLeagueArray`. -/
def collectConfigTokens : ConfigVal → List String
  | .str s => let t := jsTrim s; if t = "" then [] else splitLeagueTokens t
  | .arr items => collectConfigTokensList items
  | .nullVal => []

/-- `collect` mapped over the entries of an array value. -/
def collectConfigTokensList : List ConfigVal → List String
  | [] => []
  | v :: rest => collectConfigTokens v ++ collectConfigTokensList rest

end

/-- The normalization loop of `_coerceLeagueArray`: "all" returns every
supported league at once; recognised tokens are collected lower-cased and
deduplicated. -/
def coerceLeagueLoop : List String → List String → List String
  | [], acc => acc.reverse
  | t :: ts, acc =>
    let lower := jsToLower t
    if lower = "all" then SUPPORTED_LEAGUES
    else if lower ∈ SUPPORTED_LEAGUES ∧ lower ∉ acc then
      coerceLeagueLoop ts (lower :: acc)
    else coerceLeagueLoop ts acc

/-- `_coerceLeagueArray`. -/
def coerceLeagueArray (input : ConfigVal) : List String :=
  coerceLeagueLoop (collectConfigTokens input) []

/-- The configuration fields consumed by the league resolution (`none`
models an undefined property). -/
structure HelperConfig where
  leagues : Option ConfigVal
  league : Option ConfigVal

/-- `(typeof cfg.leagues !== "undefined") ? cfg.leagues : cfg.league`. -/
def configLeagueSource (cfg : HelperConfig) : ConfigVal :=
  match cfg.leagues with
  | some v => v
  | none =>
    match cfg.league with
    | some v => v
    | none => ConfigVal.nullVal

/-- `_resolveConfiguredLeagues`. -/
def resolveConfiguredLeagues (cfg : HelperConfig) : List String :=
  coerceLeagueArray (configLeagueSource cfg)

/-- `_getLeague`, given the current `this.leagues` and the config. -/
def getLeagueFromState (leagues : List String) (cfg : HelperConfig) : String :=
  match leagues with
  | l :: _ => l
  | [] =>
    match coerceLeagueArray (configLeagueSource cfg) with
    | l :: _ => l
    | [] => "mlb"

/-- The league resolution of the INIT handler: when the resolved list is
empty it is replaced by `[this._getLeague()]` (which at that point sees the
empty list and falls back to the config, then to "mlb"). -/
def initLeagues (cfg : HelperConfig) : List String :=
  let resolved := resolveConfiguredLeagues cfg
  if resolved.isEmpty then [getLeagueFromState resolved cfg] else resolved

/-- `_normalizeLeagueKey`. -/
def normalizeLeagueKey (value : Option String) : Option String :=
  match value with
  | none => none
  | some v =>
    let str := jsToLower (jsTrim v)
    if str ∈ SUPPORTED_LEAGUES then some str else none

/-- The `games` argument of `_notifyGames`: an array, an object that may
wrap a `games` array, or anything else. -/
inductive GamesArg (γ : Type) where
  | arr (games : List γ)
  | obj (games : Option (List γ))
  | other

/-- The notification payload fields set by `_notifyGames`.  The optional
`extras` merged into the payload never carry a `league` or `games` key at
any call site and are not modelled. -/
structure GamesPayload (γ : Type) where
  league : String
  games : List γ

/-- `_notifyGames`. -/
def notifyGames {γ : Type} (leagues : List String) (cfg : HelperConfig)
    (league : Option String) (games : GamesArg γ) : GamesPayload γ :=
  let normalizedLeague :=
    (normalizeLeagueKey league).getD (getLeagueFromState leagues cfg)
  let normalizedGames :=
    match games with
    | .arr l => l
    | .obj (some l) => l
    | .obj none => []
    | .other => []
  ⟨normalizedLeague, normalizedGames⟩

/-! ### Helper lemmas -/

theorem notDash_digitChar (n : Nat) : notDash (digitChar n) = true := by
  unfold notDash digitChar
  have hk : n % 10 < 10 := Nat.mod_lt _ (by norm_num)
  set k := n % 10 with hkdef
  interval_cases k <;> decide

theorem filter_notDash_pad2 (n : Nat) : (pad2 n).filter notDash = pad2 n := by
  simp [pad2, List.filter, notDash_digitChar]

theorem filter_notDash_pad4 (n : Nat) : (pad4 n).filter notDash = pad4 n := by
  simp [pad4, List.filter, notDash_digitChar]

theorem removeDashes_isoChars (dt : Ymd) :
    removeDashes (isoChars dt) = compactChars dt := by
  unfold removeDashes isoChars compactChars
  simp [List.filter_append, List.filter_cons, filter_notDash_pad2,
    filter_notDash_pad4, show notDash '-' = false from rfl]

theorem jsToUpper_SO : jsToUpper "SO" = "SO" := by decide

theorem jsToUpper_OT : jsToUpper "OT" = "OT" := by decide

theorem jsToUpper_empty : jsToUpper "" = "" := by decide

/-! ### Claim theorems -/

/-- Claim C4: for every local calendar date and valid local time-of-day, the
target-date resolver rolls back to the previous local calendar day exactly
when the local time is strictly before 09:30 (so 09:29 yields yesterday and
09:30 yields today), and the returned `dateCompact` is `dateIso` with the
hyphens removed, i.e. the compact YYYYMMDD rendering of the same resolved
date. -/
theorem C4_target_date_resolver (D : Ymd) (h m : Nat)
    (hh : h < 24) (hm : m < 60) :
    getTargetDate true D h m =
      (isoChars (if h * 60 + m < 570 then prevDay D else D),
       compactChars (if h * 60 + m < 570 then prevDay D else D)) := by
  unfold getTargetDate
  have hcond : (true = true ∧ (h < 9 ∨ (h = 9 ∧ m < 30))) ↔
      h * 60 + m < 570 := by
    constructor
    · rintro ⟨-, hc⟩
      omega
    · intro hc
      exact ⟨rfl, by omega⟩
  by_cases hc : h * 60 + m < 570
  · rw [if_pos (hcond.mpr hc), if_pos hc]
    exact Prod.ext rfl (removeDashes_isoChars _)
  · rw [if_neg (fun hx => hc (hcond.mp hx)), if_neg hc]
    exact Prod.ext rfl (removeDashes_isoChars _)

/-- Witness for C4 at a concrete input: in any timezone-local date, 09:29
resolves to the previous day and 09:30 to the same day, with the compact
date equal to the ISO date without hyphens. -/
theorem C4_target_date_resolver_witness :
    getTargetDate true ⟨2026, 3, 1⟩ 9 29 =
      (isoChars ⟨2026, 2, 28⟩, compactChars ⟨2026, 2, 28⟩) ∧
    getTargetDate true ⟨2026, 3, 1⟩ 9 30 =
      (isoChars ⟨2026, 3, 1⟩, compactChars ⟨2026, 3, 1⟩) := by
  constructor
  · have := C4_target_date_resolver ⟨2026, 3, 1⟩ 9 29 (by decide) (by decide)
    simpa [prevDay, daysInMonth, isLeap] using this
  · have := C4_target_date_resolver ⟨2026, 3, 1⟩ 9 30 (by decide) (by decide)
    simpa using this

/-- Claim C7: the NHL final-detail derivation returns Final/SO for period
type SO, Final/OT for period type OT with period number at most 4, Final
slash (n minus 3) OT for period type OT with number n greater than 4 (in
particular number 5 with type OT yields exactly "Final/2OT"), and Final in
every other case (any period type whose upper-casing is neither SO nor OT,
with or without a number). -/
theorem C7_final_detail :
    (∀ num : Option Int,
      nhlScoreboardFinalDetail ⟨num, some "SO"⟩ = "Final/SO")
  ∧ (∀ n : Int, n ≤ 4 →
      nhlScoreboardFinalDetail ⟨some n, some "OT"⟩ = "Final/OT")
  ∧ (∀ n : Int, 4 < n →
      nhlScoreboardFinalDetail ⟨some n, some "OT"⟩ =
        "Final/" ++ toString (n - 3) ++ "OT")
  ∧ nhlScoreboardFinalDetail ⟨some 5, some "OT"⟩ = "Final/2OT"
  ∧ (∀ (num : Option Int) (ty : String), jsToUpper ty ≠ "SO" →
      jsToUpper ty ≠ "OT" →
      nhlScoreboardFinalDetail ⟨num, some ty⟩ = "Final")
  ∧ (∀ num : Option Int, nhlScoreboardFinalDetail ⟨num, none⟩ = "Final") := by
  refine ⟨?_, ?_, ?_, ?_, ?_, ?_⟩
  · intro num
    simp [nhlScoreboardFinalDetail, jsToUpper_SO]
  · intro n hn
    have h4 : ¬(n ≠ 0 ∧ 4 < n) := by
      rintro ⟨-, hgt⟩
      omega
    simp [nhlScoreboardFinalDetail, h4, jsToUpper_OT]
  · intro n hn
    have h4 : n ≠ 0 ∧ 4 < n := ⟨by omega, hn⟩
    simp [nhlScoreboardFinalDetail, h4, jsToUpper_OT]
  · decide
  · intro num ty hso hot
    simp [nhlScoreboardFinalDetail, hso, hot]
  · intro num
    simp [nhlScoreboardFinalDetail, jsToUpper_empty]

/-- A provider chain whose every attempt yielded zero games yields zero
games. -/
theorem providerChainResult_of_all_empty {outcomes : List ProviderOutcome}
    (h : ∀ o ∈ outcomes, outcomeGames o = []) :
    providerChainResult outcomes = [] := by
  induction outcomes with
  | nil => rfl
  | cons o rest ih =>
    have ho := h o (List.mem_cons_self o rest)
    have hrest : ∀ x ∈ rest, outcomeGames x = [] := fun x hx =>
      h x (List.mem_cons_of_mem o hx)
    cases o with
    | cacheHit games =>
      simp only [outcomeGames] at ho
      simp [providerChainResult, ho]
    | fetched games =>
      simp only [outcomeGames] at ho
      subst ho
      simp [providerChainResult, ih hrest]
    | err =>
      simp [providerChainResult, ih hrest]

/-- Claim C1: if every provider attempt of the cycle (including the
results-page scrape) yields zero games and a non-empty last-good snapshot
exists for the league, the orchestrator emits exactly that snapshot (and its
legacy-event emission is non-empty, not an empty list), leaving the snapshot
unchanged; and in every cycle the snapshot is either left unchanged or
overwritten with the (non-empty) games of the cycle, so it is never replaced
by an empty result. -/
theorem C1_degraded_mode :
    (∀ (outcomes : List ProviderOutcome) (resultsPage lg : List OlympicGame),
      (∀ o ∈ outcomes, outcomeGames o = []) → resultsPage = [] → lg ≠ [] →
      olympicCycle outcomes resultsPage (some lg) = (lg, some lg) ∧
      normalizedGamesToLegacyEvents
        (olympicCycle outcomes resultsPage (some lg)).1 ≠ [])
  ∧ (∀ (outcomes : List ProviderOutcome) (resultsPage : List OlympicGame)
      (lastGood : Option (List OlympicGame)),
      (olympicCycle outcomes resultsPage lastGood).2 = lastGood ∨
      ((olympicCycle outcomes resultsPage lastGood).2 =
          some (olympicCycle outcomes resultsPage lastGood).1 ∧
        (olympicCycle outcomes resultsPage lastGood).1 ≠ [])) := by
  constructor
  · intro outcomes resultsPage lg hall hrp hlg
    subst hrp
    have hchain := providerChainResult_of_all_empty hall
    have hlen : 0 < lg.length := List.length_pos.mpr hlg
    have hcycle : olympicCycle outcomes [] (some lg) = (lg, some lg) := by
      unfold olympicCycle
      rw [hchain]
      simp [hlen]
    refine ⟨hcycle, ?_⟩
    rw [hcycle]
    simp [normalizedGamesToLegacyEvents, hlg]
  · intro outcomes resultsPage lastGood
    unfold olympicCycle
    set normalizedGames :=
      if (providerChainResult outcomes).length = 0 ∧ 0 < resultsPage.length
      then resultsPage else providerChainResult outcomes with hnorm
    by_cases hpos : 0 < normalizedGames.length
    · right
      rw [if_pos hpos]
      exact ⟨rfl, List.length_pos.mp hpos⟩
    · left
      rw [if_neg hpos]
      match lastGood with
      | none => rfl
      | some lg =>
        by_cases hlg : 0 < lg.length
        · simp [hlg]
        · simp [hlg]

/-- Witness for C1: an error stage, an empty fetch and an empty results page
fall back to the concrete one-game snapshot, which is left unchanged. -/
theorem C1_degraded_mode_witness :
    olympicCycle [ProviderOutcome.err, ProviderOutcome.fetched []] []
        (some [⟨"olympic_mhockey", "g1", "", "pre", "", "",
          ⟨"USA", "United States", ""⟩, ⟨"CAN", "Canada", ""⟩, "",
          ⟨"espn_mens_olympics", "t0"⟩⟩]) =
      ([⟨"olympic_mhockey", "g1", "", "pre", "", "",
          ⟨"USA", "United States", ""⟩, ⟨"CAN", "Canada", ""⟩, "",
          ⟨"espn_mens_olympics", "t0"⟩⟩],
        some [⟨"olympic_mhockey", "g1", "", "pre", "", "",
          ⟨"USA", "United States", ""⟩, ⟨"CAN", "Canada", ""⟩, "",
          ⟨"espn_mens_olympics", "t0"⟩⟩]) :=
  (C1_degraded_mode.1 [ProviderOutcome.err, ProviderOutcome.fetched []] []
    [⟨"olympic_mhockey", "g1", "", "pre", "", "",
      ⟨"USA", "United States", ""⟩, ⟨"CAN", "Canada", ""⟩, "",
      ⟨"espn_mens_olympics", "t0"⟩⟩]
    (by decide) rfl (by decide)).1

theorem dateKeyLe_total (a b : Option Int) :
    dateKeyLe a b = true ∨ dateKeyLe b a = true := by
  cases a <;> cases b <;> simp [dateKeyLe] <;> omega

theorem dateKeyLe_trans (a b c : Option Int) (h1 : dateKeyLe a b = true)
    (h2 : dateKeyLe b c = true) : dateKeyLe a c = true := by
  cases a <;> cases b <;> cases c <;> simp [dateKeyLe] at h1 h2 ⊢ <;> omega

/-- Claim C3 (counterexample to the stated ordering): hydrating a list made
of a game with no resolvable date followed by a game with a resolvable date
puts the dated game first and the undated game last, while the claim states
the undated game sorts before every dated one. -/
theorem C3_counterexample :
    nhlStartDate ⟨none, none, none, none, none⟩ = none ∧
    nhlStartDate ⟨some 0, none, none, none, none⟩ = some 0 ∧
    hydrateNhlGames
        [⟨none, none, none, none, none⟩, ⟨some 0, none, none, none, none⟩] =
      [⟨some 0, some 0, none, none, none⟩,
        ⟨none, none, none, none, none⟩] := by
  refine ⟨rfl, rfl, ?_⟩
  decide

/-- Claim C3 as amended: the hydrated NHL game list and the normalized
Olympic game list are sorted by resolved start time ascending, and any game
whose start date cannot be resolved sorts after every game with a resolvable
date (the pairwise order below is false exactly when an undated game
precedes a dated one, and requires ascending timestamps on dated pairs). -/
theorem C3_sorted_order :
    (∀ games : List NhlGame,
      List.Sorted (fun a b => nhlGameLe a b = true) (hydrateNhlGames games))
  ∧ (∀ (parse : String → Option Int) (events : List RawEvent)
      (leagueKey providerName fetchedAtUTC : String),
      List.Sorted (fun a b => olympicGameLe parse a b = true)
        (normalizedOlympicGamesFromEvents parse events leagueKey providerName
          fetchedAtUTC)) := by
  constructor
  · intro games
    exact sortByLe_sorted nhlGameLe
      (fun a b => dateKeyLe_total (nhlStartDate a) (nhlStartDate b))
      (fun a b c h1 h2 => dateKeyLe_trans (nhlStartDate a) (nhlStartDate b)
        (nhlStartDate c) h1 h2) _
  · intro parse events leagueKey providerName fetchedAtUTC
    exact sortByLe_sorted (olympicGameLe parse)
      (fun a b => dateKeyLe_total (olympicDateKey parse a)
        (olympicDateKey parse b))
      (fun a b c h1 h2 => dateKeyLe_trans (olympicDateKey parse a)
        (olympicDateKey parse b) (olympicDateKey parse c) h1 h2) _

/-- Inside the window the availability check answers false and preserves
`available` and `checkedAt`. -/
theorem restAvailable_skip {st : RestStatus} {now : Int}
    (h1 : st.checkedAt ≠ 0) (h2 : now - st.checkedAt < restTtlMs)
    (h3 : st.available = some false) :
    (nhlStatsRestAvailable st now).1 = false ∧
    (nhlStatsRestAvailable st now).2.available = st.available ∧
    (nhlStatsRestAvailable st now).2.checkedAt = st.checkedAt := by
  unfold nhlStatsRestAvailable
  rw [if_pos ⟨h1, h2, h3⟩]
  by_cases hw : st.warnedAt = 0 ∨ restTtlMs < now - st.warnedAt
  · rw [if_pos hw]
    exact ⟨rfl, rfl, rfl⟩
  · rw [if_neg hw]
    exact ⟨rfl, rfl, rfl⟩

/-- A fetch inside the 24-hour unavailability window is skipped and keeps
the breaker state (only `warnedAt` may move). -/
theorem restFetch_skip {st : RestStatus} {now : Int} (h1 : st.checkedAt ≠ 0)
    (h2 : now - st.checkedAt < restTtlMs) (h3 : st.available = some false)
    (http : RestHttp) :
    (fetchNhlStatsRestGames st now http).games = [] ∧
    (fetchNhlStatsRestGames st now http).didCall = false ∧
    (fetchNhlStatsRestGames st now http).status.available = some false ∧
    (fetchNhlStatsRestGames st now http).status.checkedAt = st.checkedAt := by
  obtain ⟨ha, hb, hc⟩ := restAvailable_skip h1 h2 h3
  unfold fetchNhlStatsRestGames
  rw [if_pos ha]
  refine ⟨rfl, rfl, ?_, ?_⟩
  · rw [hb]
    exact h3
  · exact hc

/-- Every fetch of a sequence that stays inside the window is skipped. -/
theorem runRestFetches_window {t0 : Int} (ht0 : t0 ≠ 0) :
    ∀ (fetches : List (Int × RestHttp)) (st : RestStatus),
      st.available = some false → st.checkedAt = t0 →
      (∀ th ∈ fetches, th.1 - t0 < restTtlMs) →
      ∀ o ∈ runRestFetches st fetches, o.games = [] ∧ o.didCall = false := by
  intro fetches
  induction fetches with
  | nil =>
    intro st _ _ _ o ho
    simp [runRestFetches] at ho
  | cons th rest ih =>
    intro st hav hch hwin o ho
    obtain ⟨t, http⟩ := th
    have hwin1 : t - t0 < restTtlMs := hwin (t, http) (List.mem_cons_self _ _)
    have hskip := @restFetch_skip st t
      (by rw [hch]; exact ht0) (by rw [hch]; exact hwin1) hav http
    simp only [runRestFetches, List.mem_cons] at ho
    rcases ho with rfl | ho
    · exact ⟨hskip.1, hskip.2.1⟩
    · exact ih (fetchNhlStatsRestGames st t http).status hskip.2.2.1
        (by rw [hskip.2.2.2, hch])
        (fun x hx => hwin x (List.mem_cons_of_mem _ hx)) o ho

/-- Claim C8: once the stats-REST call has returned HTTP 404 at time t0,
every fetch whose time stays within the 24-hour TTL returns an empty list
without contacting the endpoint, and the first fetch at or past the TTL
boundary attempts the call again. -/
theorem C8_rest_circuit_breaker :
    (∀ (t0 : Int) (fetches : List (Int × RestHttp)), 0 < t0 →
      (∀ th ∈ fetches, th.1 - t0 < restTtlMs) →
      ∀ o ∈ runRestFetches (markNhlStatsRestUnavailable t0) fetches,
        o.games = [] ∧ o.didCall = false)
  ∧ (∀ (t0 now : Int) (http : RestHttp), 0 < t0 → restTtlMs ≤ now - t0 →
      (fetchNhlStatsRestGames (markNhlStatsRestUnavailable t0) now
        http).didCall = true) := by
  constructor
  · intro t0 fetches ht0 hwin o ho
    exact @runRestFetches_window t0 (ne_of_gt ht0) fetches
      (markNhlStatsRestUnavailable t0) rfl rfl hwin o ho
  · intro t0 now http ht0 httl
    have hcheck : nhlStatsRestAvailable (markNhlStatsRestUnavailable t0) now =
        (true, markNhlStatsRestUnavailable t0) := by
      unfold nhlStatsRestAvailable
      rw [if_neg (by
        rintro ⟨-, hlt, -⟩
        exact absurd hlt (not_lt.mpr httl))]
    unfold fetchNhlStatsRestGames
    simp only [hcheck]
    cases http with
    | ok games => simp
    | httpError s =>
      by_cases h404 : s = 404
      · simp [h404]
      · simp [h404]
    | netError => simp

/-- Witness for C8 at concrete times: two fetches 1 hour and 23 hours after
the 404 are skipped with empty results, and a fetch exactly 24 hours later
contacts the endpoint again. -/
theorem C8_rest_circuit_breaker_witness :
    (∀ o ∈ runRestFetches (markNhlStatsRestUnavailable 1000)
        [(1000 + 3600000, RestHttp.ok []),
          (1000 + 23 * 3600000, RestHttp.netError)],
      o.games = [] ∧ o.didCall = false) ∧
    (fetchNhlStatsRestGames (markNhlStatsRestUnavailable 1000)
        (1000 + restTtlMs) (RestHttp.ok [])).didCall = true :=
  ⟨C8_rest_circuit_breaker.1 1000
      [(1000 + 3600000, RestHttp.ok []),
        (1000 + 23 * 3600000, RestHttp.netError)]
      (by decide) (by decide),
    C8_rest_circuit_breaker.2 1000 (1000 + restTtlMs) (RestHttp.ok [])
      (by decide) (by omega)⟩

/-- Every league the normalization loop returns is supported. -/
theorem coerceLeagueLoop_subset :
    ∀ (ts acc : List String), (∀ x ∈ acc, x ∈ SUPPORTED_LEAGUES) →
      ∀ x ∈ coerceLeagueLoop ts acc, x ∈ SUPPORTED_LEAGUES := by
  intro ts
  induction ts with
  | nil =>
    intro acc hacc x hx
    simp only [coerceLeagueLoop, List.mem_reverse] at hx
    exact hacc x hx
  | cons t rest ih =>
    intro acc hacc x hx
    simp only [coerceLeagueLoop] at hx
    by_cases hall : jsToLower t = "all"
    · rw [if_pos hall] at hx
      exact hx
    · rw [if_neg hall] at hx
      by_cases hmem : jsToLower t ∈ SUPPORTED_LEAGUES ∧ jsToLower t ∉ acc
      · rw [if_pos hmem] at hx
        refine ih _ (fun y hy => ?_) x hx
        rcases List.mem_cons.mp hy with rfl | hy
        · exact hmem.1
        · exact hacc y hy
      · rw [if_neg hmem] at hx
        exact ih acc hacc x hx

theorem coerceLeagueArray_subset (input : ConfigVal) :
    ∀ x ∈ coerceLeagueArray input, x ∈ SUPPORTED_LEAGUES :=
  fun x hx => coerceLeagueLoop_subset _ [] (by simp) x hx

theorem getLeagueFromState_mem (leagues : List String) (cfg : HelperConfig)
    (hle : ∀ x ∈ leagues, x ∈ SUPPORTED_LEAGUES) :
    getLeagueFromState leagues cfg ∈ SUPPORTED_LEAGUES := by
  cases leagues with
  | cons l rest => exact hle l (List.mem_cons_self _ _)
  | nil =>
    unfold getLeagueFromState
    cases hc : coerceLeagueArray (configLeagueSource cfg) with
    | nil => decide
    | cons l rest =>
      exact coerceLeagueArray_subset _ l (hc ▸ List.mem_cons_self _ _)

theorem initLeagues_mem (cfg : HelperConfig) :
    ∀ x ∈ initLeagues cfg, x ∈ SUPPORTED_LEAGUES := by
  intro x hx
  unfold initLeagues at hx
  by_cases hres : (resolveConfiguredLeagues cfg).isEmpty
  · rw [if_pos hres] at hx
    have hx2 := List.mem_singleton.mp hx
    subst hx2
    exact getLeagueFromState_mem _ cfg
      (fun y hy => coerceLeagueArray_subset _ y hy)
  · rw [if_neg hres] at hx
    exact coerceLeagueArray_subset _ x hx

theorem normalizeLeagueKey_mem (v : Option String) (s : String)
    (h : normalizeLeagueKey v = some s) : s ∈ SUPPORTED_LEAGUES := by
  cases v with
  | none => exact absurd h (by simp [normalizeLeagueKey])
  | some v =>
    simp only [normalizeLeagueKey] at h
    by_cases hmem : jsToLower (jsTrim v) ∈ SUPPORTED_LEAGUES
    · rw [if_pos hmem] at h
      cases h
      exact hmem
    · rw [if_neg hmem] at h
      cases h

/-- The six supported league keys are already lower-case. -/
theorem lower_of_mem_SUPPORTED {x : String} (hx : x ∈ SUPPORTED_LEAGUES) :
    jsToLower x = x := by
  simp only [SUPPORTED_LEAGUES, List.mem_cons, List.not_mem_nil, or_false]
    at hx
  rcases hx with rfl | rfl | rfl | rfl | rfl | rfl <;> decide

/-- Claim C9 (counterexample to the stated behaviour): a configuration whose
league selection contains only an unrecognized token resolves to zero
leagues, and the INIT handler silently replaces the empty list with the
documented default league mlb instead of surfacing the condition. -/
theorem C9_counterexample :
    resolveConfiguredLeagues ⟨some (ConfigVal.str "foo"), none⟩ = [] ∧
    initLeagues ⟨some (ConfigVal.str "foo"), none⟩ = ["mlb"] := by
  exact ⟨rfl, rfl⟩

/-- Claim C9 as amended: whenever the supplied configuration resolves to
zero leagues to poll (empty, missing, or containing only unrecognized
tokens), the INIT handler silently falls back to polling the default league
mlb; no special startup error path exists for this condition. -/
theorem C9_silent_default (cfg : HelperConfig)
    (h : resolveConfiguredLeagues cfg = []) : initLeagues cfg = ["mlb"] := by
  have h2 : coerceLeagueArray (configLeagueSource cfg) = [] := h
  have h3 : getLeagueFromState [] cfg = "mlb" := by
    unfold getLeagueFromState
    rw [h2]
  unfold initLeagues
  rw [h]
  simp [h3]

/-- Witness for C9 at a concrete unrecognized-token configuration. -/
theorem C9_silent_default_witness :
    initLeagues ⟨some (ConfigVal.str "hockey nonsense"), none⟩ = ["mlb"] :=
  C9_silent_default ⟨some (ConfigVal.str "hockey nonsense"), none⟩ rfl

/-- Claim C10: for every configuration, league argument and games argument
of any shape (an array, an object wrapping a games array, or anything else),
the notification payload built by the helper carries a games list determined
by the array coercion of the source and a league key that is one of the six
supported league keys and is already lower-case. -/
theorem C10_notify_payload {γ : Type} (cfg : HelperConfig)
    (league : Option String) (games : GamesArg γ) :
    (notifyGames (initLeagues cfg) cfg league games).league ∈
        SUPPORTED_LEAGUES ∧
    jsToLower (notifyGames (initLeagues cfg) cfg league games).league =
      (notifyGames (initLeagues cfg) cfg league games).league ∧
    (notifyGames (initLeagues cfg) cfg league games).games =
      (match games with
        | .arr l => l
        | .obj (some l) => l
        | .obj none => []
        | .other => []) := by
  have hleague : (notifyGames (initLeagues cfg) cfg league games).league ∈
      SUPPORTED_LEAGUES := by
    unfold notifyGames
    cases hk : normalizeLeagueKey league with
    | some s =>
      simpa [hk] using normalizeLeagueKey_mem league s hk
    | none =>
      simp only [hk, Option.getD_none]
      exact getLeagueFromState_mem _ cfg (initLeagues_mem cfg)
  exact ⟨hleague, lower_of_mem_SUPPORTED hleague, rfl⟩

/-- Claim C5 (counterexample): an event whose home competitor carries no
team data at all does not keep a Team with empty code and name; the
normalizer returns null for that competitor and the whole game is omitted
from the output. -/
theorem C5_counterexample :
    normalizeOlympicTeam ⟨some "home", none, none, none⟩ = none ∧
    normalizedOlympicGamesFromEvents (fun _ => none)
        [⟨some "e1", some "2026-02-11T12:00Z", none, none,
          some [⟨some "c1", some "2026-02-11T12:00Z", none, none, none,
            some [⟨some "home", none, none, none⟩,
              ⟨some "away", some "2", none,
                some ⟨some "Canada", none, none, some "CAN"⟩⟩]⟩],
          none⟩]
        "olympic_mhockey" "espn_mens_olympics" "t0" = [] := by
  exact ⟨rfl, rfl⟩

/-- Claim C5 as amended: a competitor from which neither a name nor a code
can be derived produces no Team record (the normalizer returns null rather
than an empty-field Team), and a game whose home or away competitor
normalizes to null is omitted from the normalizer output; a Team record is
produced exactly when at least one of name or code is non-empty. -/
theorem C5_missing_team_omits_game :
    (∀ comp : RawCompetitor,
      normalizeOlympicTeam comp = none ↔
        (olympicTeamName comp = "" ∧ olympicTeamCode3 comp = ""))
  ∧ (∀ (leagueKey providerName fetchedAtUTC : String) (i : Nat)
      (ev : RawEvent),
      (normalizeOlympicTeam
          (olympicHomeCompetitor (olympicEventCompetitors ev)) = none ∨
        normalizeOlympicTeam
          (olympicAwayCompetitor (olympicEventCompetitors ev)) = none) →
      normalizeOlympicEvent leagueKey providerName fetchedAtUTC (i, ev) =
        none) := by
  constructor
  · intro comp
    unfold normalizeOlympicTeam
    by_cases hc : olympicTeamName comp = "" ∧ olympicTeamCode3 comp = ""
    · rw [if_pos hc]
      simp [hc]
    · rw [if_neg hc]
      simp [hc]
  · intro leagueKey providerName fetchedAtUTC i ev hnone
    simp only [normalizeOlympicEvent]
    by_cases hlen : (olympicEventCompetitors ev).length < 2
    · rw [if_pos hlen]
    · rw [if_neg hlen]
      rcases hnone with h | h
      · rw [h]
      · cases hh : normalizeOlympicTeam
            (olympicHomeCompetitor (olympicEventCompetitors ev)) with
        | none => rfl
        | some t => rw [h]

/-- Witness for C5: the fully-empty competitor yields no Team, and the
concrete event containing it yields no game. -/
theorem C5_missing_team_omits_game_witness :
    normalizeOlympicTeam defaultRawCompetitor = none ∧
    normalizeOlympicEvent "olympic_mhockey" "espn_mens_olympics" "t0"
      (0, ⟨some "e1", some "2026-02-11T12:00Z", none, none,
        some [⟨some "c1", some "2026-02-11T12:00Z", none, none, none,
          some [⟨some "home", none, none, none⟩,
            ⟨some "away", some "2", none,
              some ⟨some "Canada", none, none, some "CAN"⟩⟩]⟩],
        none⟩) = none :=
  ⟨(C5_missing_team_omits_game.1 defaultRawCompetitor).mpr ⟨rfl, rfl⟩,
    C5_missing_team_omits_game.2 "olympic_mhockey" "espn_mens_olympics" "t0" 0
      _ (Or.inl (by decide))⟩

theorem jsUpperChar_not_lower (c : Char) :
    ¬(97 ≤ (jsUpperChar c).toNat ∧ (jsUpperChar c).toNat ≤ 122) := by
  unfold jsUpperChar
  by_cases h : 97 ≤ c.toNat ∧ c.toNat ≤ 122
  · rw [if_pos h]
    obtain ⟨h1, h2⟩ := h
    generalize hn : c.toNat = n at h1 h2 ⊢
    interval_cases n <;> decide
  · rw [if_neg h]
    exact h

theorem jsUpperChar_of_not_lower {c : Char}
    (h : ¬(97 ≤ c.toNat ∧ c.toNat ≤ 122)) : jsUpperChar c = c := by
  unfold jsUpperChar
  rw [if_neg h]

theorem jsUpperChar_idem (c : Char) :
    jsUpperChar (jsUpperChar c) = jsUpperChar c :=
  jsUpperChar_of_not_lower (jsUpperChar_not_lower c)

/-- Upper-casing a prefix slice of an upper-cased string changes nothing. -/
theorem jsToUpper_jsSlice_jsToUpper (k : Nat) (s : String) :
    jsToUpper (jsSlice k (jsToUpper s)) = jsSlice k (jsToUpper s) := by
  unfold jsToUpper jsSlice
  refine congrArg String.mk ?_
  rw [← List.map_take, List.map_map]
  exact List.map_congr_left (fun a _ => jsUpperChar_idem a)

theorem jsSlice_length_le (k : Nat) (s : String) :
    (jsSlice k s).length ≤ k := by
  unfold jsSlice
  show (s.data.take k).length ≤ k
  rw [List.length_take]
  omega

theorem olympicTeamCode3_upper (comp : RawCompetitor) :
    jsToUpper (olympicTeamCode3 comp) = olympicTeamCode3 comp := by
  unfold olympicTeamCode3
  exact jsToUpper_jsSlice_jsToUpper 3 _

theorem olympicTeamCode3_length (comp : RawCompetitor) :
    (olympicTeamCode3 comp).length ≤ 3 := by
  unfold olympicTeamCode3
  exact jsSlice_length_le 3 _

theorem normalizeOlympicStatus_status_cases (so : Option RawStatus) :
    (normalizeOlympicStatus so).status = "pre" ∨
    (normalizeOlympicStatus so).status = "live" ∨
    (normalizeOlympicStatus so).status = "final" := by
  simp only [normalizeOlympicStatus]
  split_ifs <;> simp

theorem normalizeOlympicTeam_some {comp : RawCompetitor} {t : OTeam}
    (h : normalizeOlympicTeam comp = some t) :
    t.code3 = olympicTeamCode3 comp ∧ t.name = olympicTeamName comp := by
  unfold normalizeOlympicTeam at h
  by_cases hc : olympicTeamName comp = "" ∧ olympicTeamCode3 comp = ""
  · rw [if_pos hc] at h
    cases h
  · rw [if_neg hc] at h
    injection h with h
    subst h
    exact ⟨rfl, rfl⟩

/-- Every game of the normalizer output comes from one indexed event via
`normalizeOlympicEvent`, together with the shapes of its fields. -/
theorem normalizedOlympicGame_fields {parse : String → Option Int}
    {events : List RawEvent} {leagueKey providerName fetchedAtUTC : String}
    {g : OlympicGame}
    (hg : g ∈ normalizedOlympicGamesFromEvents parse events leagueKey
      providerName fetchedAtUTC) :
    ∃ ev : RawEvent,
      normalizeOlympicTeam
          (olympicHomeCompetitor (olympicEventCompetitors ev)) =
        some g.home ∧
      normalizeOlympicTeam
          (olympicAwayCompetitor (olympicEventCompetitors ev)) =
        some g.away ∧
      g.status = (normalizeOlympicStatus (olympicEventStatus ev)).status := by
  obtain ⟨ie, hie, heq⟩ :=
    List.mem_filterMap.mp (mem_sortByLe hg)
  refine ⟨ie.2, ?_⟩
  simp only [normalizeOlympicEvent] at heq
  by_cases hlen : (olympicEventCompetitors ie.2).length < 2
  · rw [if_pos hlen] at heq
    cases heq
  · rw [if_neg hlen] at heq
    cases hh : normalizeOlympicTeam
        (olympicHomeCompetitor (olympicEventCompetitors ie.2)) with
    | none =>
      rw [hh] at heq
      cases heq
    | some ht =>
      cases ha : normalizeOlympicTeam
          (olympicAwayCompetitor (olympicEventCompetitors ie.2)) with
      | none =>
        rw [hh, ha] at heq
        cases heq
      | some ta =>
        rw [hh, ha] at heq
        injection heq with heq
        subst heq
        exact ⟨rfl, rfl, rfl⟩

/-- Claim C6: every Game produced by the Olympic normalizer from any raw
event list has home and away codes that are unchanged by upper-casing (they
contain no lower-case letter) and of length at most 3, and a status that is
one of pre, live, final. -/
theorem C6_normalizer_invariants (parse : String → Option Int)
    (events : List RawEvent) (leagueKey providerName fetchedAtUTC : String)
    (g : OlympicGame)
    (hg : g ∈ normalizedOlympicGamesFromEvents parse events leagueKey
      providerName fetchedAtUTC) :
    jsToUpper g.home.code3 = g.home.code3 ∧ g.home.code3.length ≤ 3 ∧
    jsToUpper g.away.code3 = g.away.code3 ∧ g.away.code3.length ≤ 3 ∧
    (g.status = "pre" ∨ g.status = "live" ∨ g.status = "final") := by
  obtain ⟨ev, hh, ha, hs⟩ := normalizedOlympicGame_fields hg
  obtain ⟨hhc, -⟩ := normalizeOlympicTeam_some hh
  obtain ⟨hac, -⟩ := normalizeOlympicTeam_some ha
  refine ⟨?_, ?_, ?_, ?_, ?_⟩
  · rw [hhc]
    exact olympicTeamCode3_upper _
  · rw [hhc]
    exact olympicTeamCode3_length _
  · rw [hac]
    exact olympicTeamCode3_upper _
  · rw [hac]
    exact olympicTeamCode3_length _
  · rw [hs]
    exact normalizeOlympicStatus_status_cases _

/-- Witness for C6 on a concrete scoreboard event with lower-case
abbreviations. -/
theorem C6_normalizer_invariants_witness :
    jsToUpper "USA" = "USA" ∧ ("USA" : String).length ≤ 3 ∧
    jsToUpper "CAN" = "CAN" ∧ ("CAN" : String).length ≤ 3 ∧
    (("pre" : String) = "pre" ∨ ("pre" : String) = "live" ∨
      ("pre" : String) = "final") :=
  C6_normalizer_invariants (fun _ => none)
    [⟨some "w1", some "2026-02-11T12:00Z", none, none,
      some [⟨some "c1", some "2026-02-11T12:00Z", none, none, none,
        some [⟨some "home", some "3", none,
            some ⟨some "United States", none, none, some "usa"⟩⟩,
          ⟨some "away", some "2", none,
            some ⟨some "Canada", none, none, some "can"⟩⟩]⟩],
      none⟩]
    "olympic_mhockey" "espn_mens_olympics" "t0"
    ⟨"olympic_mhockey", "w1", "2026-02-11T12:00Z", "pre", "", "",
      ⟨"USA", "United States", "3"⟩, ⟨"CAN", "Canada", "2"⟩, "",
      ⟨"espn_mens_olympics", "t0"⟩⟩
    (by decide)

theorem lookupKey_append_single (agg : List (String × NflEventRaw))
    (kv : String × NflEventRaw) (k : String) :
    lookupKey (agg ++ [kv]) k =
      (lookupKey agg k).or (if kv.1 == k then some kv.2 else none) := by
  unfold lookupKey
  rw [List.find?_append]
  cases hfind : List.find? (fun p => p.1 == k) agg with
  | some p => simp
  | none =>
    by_cases hk : kv.1 == k
    · simp [List.find?_cons, hk]
    · simp [List.find?_cons, hk]

/-- Folding insert-if-absent looks up to the first binding of a key: the
earlier state wins over the incoming pairs, and among the pairs the first
occurrence wins. -/
theorem lookupKey_foldInsert :
    ∀ (pairs agg : List (String × NflEventRaw)) (k : String),
      lookupKey (foldInsert agg pairs) k =
        (lookupKey agg k).or
          ((pairs.find? (fun p => p.1 == k)).map (fun p => p.2)) := by
  intro pairs
  induction pairs with
  | nil =>
    intro agg k
    show lookupKey agg k = (lookupKey agg k).or none
    cases lookupKey agg k <;> rfl
  | cons q rest ih =>
    intro agg k
    have hstep : foldInsert agg (q :: rest) =
        foldInsert (insertIfAbsent agg q.1 q.2) rest := rfl
    rw [hstep, ih, List.find?_cons]
    by_cases hqk : (q.1 == k) = true
    · have hk : q.1 = k := by simpa using hqk
      subst hk
      rw [hqk]
      unfold insertIfAbsent
      by_cases hany : agg.any (fun p => p.1 == q.1) = true
      · rw [if_pos hany]
        obtain ⟨p, hp, hpk⟩ := List.any_eq_true.mp hany
        cases hfind : List.find? (fun p => p.1 == q.1) agg with
        | none => exact absurd hpk (List.find?_eq_none.mp hfind p hp)
        | some p2 => simp [lookupKey, hfind]
      · rw [if_neg hany]
        have hnone : lookupKey agg q.1 = none := by
          unfold lookupKey
          rw [List.find?_eq_none.mpr]
          · rfl
          · intro x hx
            exact fun hxk => hany (List.any_eq_true.mpr ⟨x, hx, hxk⟩)
        rw [lookupKey_append_single, hnone]
        simp
    · have hqk2 : (q.1 == k) = false := by
        cases h2 : q.1 == k
        · rfl
        · exact absurd h2 hqk
      rw [hqk2]
      have hsame : lookupKey (insertIfAbsent agg q.1 q.2) k =
          lookupKey agg k := by
        unfold insertIfAbsent
        by_cases hany : agg.any (fun p => p.1 == q.1) = true
        · rw [if_pos hany]
        · rw [if_neg hany]
          rw [lookupKey_append_single, hqk2]
          cases lookupKey agg k <;> rfl
      rw [hsame]

theorem insertIfAbsent_nodupKeys {agg : List (String × NflEventRaw)}
    (k : String) (v : NflEventRaw) (h : (agg.map Prod.fst).Nodup) :
    ((insertIfAbsent agg k v).map Prod.fst).Nodup := by
  unfold insertIfAbsent
  by_cases hany : agg.any (fun p => p.1 == k) = true
  · rw [if_pos hany]
    exact h
  · rw [if_neg hany]
    rw [List.map_append, List.nodup_append]
    refine ⟨h, List.nodup_singleton _, ?_⟩
    intro x hx hx2
    have hxk : x = k := by simpa using hx2
    subst hxk
    rw [List.mem_map] at hx
    obtain ⟨p, hp, hpk⟩ := hx
    exact hany (List.any_eq_true.mpr ⟨p, hp, by simp [hpk]⟩)

theorem foldInsert_nodupKeys :
    ∀ (pairs agg : List (String × NflEventRaw)),
      (agg.map Prod.fst).Nodup →
      ((foldInsert agg pairs).map Prod.fst).Nodup := by
  intro pairs
  induction pairs with
  | nil =>
    intro agg h
    exact h
  | cons q rest ih =>
    intro agg h
    exact ih _ (insertIfAbsent_nodupKeys q.1 q.2 h)

theorem mem_foldInsert :
    ∀ (pairs agg : List (String × NflEventRaw)) (x : String × NflEventRaw),
      x ∈ foldInsert agg pairs → x ∈ agg ∨ x ∈ pairs := by
  intro pairs
  induction pairs with
  | nil =>
    intro agg x hx
    exact Or.inl hx
  | cons q rest ih =>
    intro agg x hx
    rcases ih _ x hx with hx2 | hx2
    · simp only [insertIfAbsent] at hx2
      by_cases hany : agg.any (fun p => p.1 == q.1) = true
      · rw [if_pos hany] at hx2
        exact Or.inl hx2
      · rw [if_neg hany] at hx2
        rcases List.mem_append.mp hx2 with h3 | h3
        · exact Or.inl h3
        · have hxq : x = (q.1, q.2) := List.mem_singleton.mp h3
          rw [hxq]
          exact Or.inr (List.mem_cons_self q rest)
    · exact Or.inr (List.mem_cons_of_mem _ hx2)

/-- The event half of the NFL merge over a whole response list is
insert-if-absent over the concatenated keyed stream. -/
theorem mergeNflResponses_fst :
    ∀ (responses : List (String × NflJson))
      (st : List (String × NflEventRaw) × List (String × NflBye)),
      (responses.foldl
        (fun st r => mergeNflScoreboardResponse r.2 st.1 st.2 r.1) st).1 =
        foldInsert st.1 (keyedStream responses) := by
  intro responses
  induction responses with
  | nil =>
    intro st
    rfl
  | cons r rest ih =>
    intro st
    rw [List.foldl_cons, ih]
    show foldInsert
        (foldInsert st.1 (keyedEvents r.1 (collectNflScoreboardEvents r.2)))
        (keyedStream rest) = foldInsert st.1 (keyedStream (r :: rest))
    rw [show keyedStream (r :: rest) =
        keyedEvents r.1 (collectNflScoreboardEvents r.2) ++ keyedStream rest
      from List.flatMap_cons r rest _]
    unfold foldInsert
    rw [List.foldl_append]

/-- A keyed-stream entry whose event has a truthy id is keyed by that id. -/
theorem keyedStream_key_of_id {responses : List (String × NflJson)}
    {q : String × NflEventRaw} (hq : q ∈ keyedStream responses)
    (hid : q.2.id.getD "" ≠ "") : q.1 = q.2.id.getD "" := by
  simp only [keyedStream, List.mem_flatMap] at hq
  obtain ⟨r, hr, hq⟩ := hq
  simp only [keyedEvents, List.mem_map] at hq
  obtain ⟨je, hje, hqe⟩ := hq
  subst hqe
  unfold nflEventKey jsOr
  rw [if_neg hid]

/-- Claim C2 (counterexample to last-write-wins): merging two date buckets
that both carry event id 401 keeps the occurrence from the earlier-fetched
bucket, not the later one, and the two occurrences differ. -/
theorem C2_counterexample :
    fetchNflWeekGames
        [("20260101", ⟨some [⟨some "401", none, some "A at B", none, none,
            none, none⟩], none, none, none, none⟩),
          ("20260102", ⟨some [⟨some "401", none, some "C at D", none, none,
            none, none⟩], none, none, none, none⟩)] =
      ⟨[⟨some "401", none, some "A at B", none, none, none, none⟩], []⟩ ∧
    (⟨some "401", none, some "A at B", none, none, none, none⟩ :
        NflEventRaw) ≠
      ⟨some "401", none, some "C at D", none, none, none, none⟩ := by
  exact ⟨rfl, by decide⟩

/-- Claim C2 as amended: after merging any list of NFL scoreboard responses,
the aggregation map has pairwise-distinct keys, each key is bound to its
first occurrence in the concatenated keyed event stream (first-write-wins:
when the same event id occurs in several date buckets, the occurrence from
the earliest-fetched bucket is kept), and every non-empty event id appears
at most once in the final aggregated game list. -/
theorem C2_merge_first_write_wins (responses : List (String × NflJson)) :
    ((mergeNflResponses responses).1.map Prod.fst).Nodup
  ∧ (∀ k : String,
      lookupKey (mergeNflResponses responses).1 k =
        ((keyedStream responses).find? (fun p => p.1 == k)).map
          (fun p => p.2))
  ∧ (∀ s : String, s ≠ "" →
      (fetchNflWeekGames responses).games.countP
        (fun e => e.id == some s) ≤ 1) := by
  have hagg : (mergeNflResponses responses).1 =
      foldInsert [] (keyedStream responses) :=
    mergeNflResponses_fst responses ([], [])
  have hnodup : ((mergeNflResponses responses).1.map Prod.fst).Nodup := by
    rw [hagg]
    exact foldInsert_nodupKeys _ [] (by simp)
  refine ⟨hnodup, ?_, ?_⟩
  · intro k
    rw [hagg, lookupKey_foldInsert]
    show (lookupKey [] k).or _ = _
    rfl
  · intro s hs
    have h1 : (fetchNflWeekGames responses).games.countP
        (fun e => e.id == some s) ≤
        ((mergeNflResponses responses).1.map (fun p => p.2)).countP
          (fun e => e.id == some s) :=
      List.Sublist.countP_le _ (List.filter_sublist _)
    have h2 : ((mergeNflResponses responses).1.map (fun p => p.2)).countP
        (fun e => e.id == some s) =
        (mergeNflResponses responses).1.countP
          ((fun e => e.id == some s) ∘ (fun p => p.2)) :=
      List.countP_map _ _ _
    have h3 : (mergeNflResponses responses).1.countP
        ((fun e => e.id == some s) ∘ (fun p => p.2)) ≤
        (mergeNflResponses responses).1.countP (fun p => p.1 == s) := by
      apply List.countP_mono_left
      intro q hq hqe
      have hqid : q.2.id = some s := by simpa using hqe
      have hgetD : q.2.id.getD "" = s := by rw [hqid]; rfl
      have hq2 : q ∈ keyedStream responses := by
        rcases mem_foldInsert _ [] q (hagg ▸ hq) with h | h
        · cases h
        · exact h
      have hkey := keyedStream_key_of_id hq2 (by rw [hgetD]; exact hs)
      rw [hkey, hgetD]
      simp
    have h4 : (mergeNflResponses responses).1.countP
        (fun p => p.1 == s) ≤ 1 := by
      have hcnt : (mergeNflResponses responses).1.countP
          (fun p => p.1 == s) =
          List.count s ((mergeNflResponses responses).1.map Prod.fst) := by
        rw [List.count_eq_countP, List.countP_map]
        rfl
      rw [hcnt]
      exact List.nodup_iff_count_le_one.mp hnodup s
    omega

/-- Witness for C2 on the two-bucket duplicate-id inputs: the id appears at
most once in the final list, and the map binds it to the earliest
occurrence. -/
theorem C2_merge_first_write_wins_witness :
    (fetchNflWeekGames
        [("20260101", ⟨some [⟨some "401", none, some "A at B", none, none,
            none, none⟩], none, none, none, none⟩),
          ("20260102", ⟨some [⟨some "401", none, some "C at D", none, none,
            none, none⟩], none, none, none, none⟩)]).games.countP
      (fun e => e.id == some "401") ≤ 1 ∧
    lookupKey (mergeNflResponses
        [("20260101", ⟨some [⟨some "401", none, some "A at B", none, none,
            none, none⟩], none, none, none, none⟩),
          ("20260102", ⟨some [⟨some "401", none, some "C at D", none, none,
            none, none⟩], none, none, none, none⟩)]).1 "401" =
      some ⟨some "401", none, some "A at B", none, none, none, none⟩ := by
  constructor
  · exact (C2_merge_first_write_wins
      [("20260101", ⟨some [⟨some "401", none, some "A at B", none, none,
          none, none⟩], none, none, none, none⟩),
        ("20260102", ⟨some [⟨some "401", none, some "C at D", none, none,
          none, none⟩], none, none, none, none⟩)]).2.2 "401" (by decide)
  · rw [(C2_merge_first_write_wins
      [("20260101", ⟨some [⟨some "401", none, some "A at B", none, none,
          none, none⟩], none, none, none, none⟩),
        ("20260102", ⟨some [⟨some "401", none, some "C at D", none, none,
          none, none⟩], none, none, none, none⟩)]).2.1 "401"]
    decide

/-- Witness for C7 at concrete inputs, including the spec's example. -/
theorem C7_final_detail_witness :
    nhlScoreboardFinalDetail ⟨some 5, some "OT"⟩ = "Final/2OT" ∧
    nhlScoreboardFinalDetail ⟨some 3, some "OT"⟩ = "Final/OT" ∧
    nhlScoreboardFinalDetail ⟨some 7, some "SO"⟩ = "Final/SO" ∧
    nhlScoreboardFinalDetail ⟨some 3, some "REG"⟩ = "Final" :=
  ⟨C7_final_detail.2.2.2.1,
   C7_final_detail.2.1 3 (by decide),
   C7_final_detail.1 (some 7),
   C7_final_detail.2.2.2.2.1 (some 3) "REG" (by decide) (by decide)⟩

end MMMScores
